import Mathlib
/-!
# Verification of the FractalGUI core (`src/fractal.py`)

Shallow embedding of the Mandelbrot computation core:

* `complex_list_to_bytes` / `bytes_to_complex_list` — the byte-level codec
  (`struct.pack('dd', ...)` / `struct.unpack`).  An IEEE-754 double is modelled
  by its 64-bit pattern (a natural number below `2^64`); `struct.pack('d', x)`
  writes exactly the eight bytes of that pattern, so packing and unpacking are
  byte-exact regardless of whether the pattern denotes a finite number, an
  infinity or a NaN.
* `roundStep` / `iterRounds` / `remap` / `smoothQ` — the per-pixel body of
  `Mandelbrot.row_set_calc`, with doubles modelled as exact rationals and the
  escape test `abs(z) < horizon` expressed by the equivalent squared comparison
  `normSq z < horizon^2` (the equivalence is proved in `escLT_iff_abs_lt`).
* `pyRound` / `taskBoundary` / `generateRanges` / `generate_tasks` — the task
  partition and buffer allocation of `Mandelbrot.generate_tasks`, with Python's
  banker's rounding (`round`) modelled exactly on `ℚ`.
* `run_task` — the completion-flag wrapper `Mandelbrot.run_task`, with the
  wrapped call modelled as a state transformer that either returns a value or
  raises.
* `data_to_image_matrix` — the final assembly of the smoothed-count grid.
-/
/-! ## Byte-level codec (`complex_list_to_bytes`, `bytes_to_complex_list`)

`struct.pack('d', x)` emits the 8 bytes of the IEEE-754 representation of `x`
in little-endian (native) order.  We model the representation as a natural
number `w < 2^64` and the pack as its base-256 digit expansion. -/
/-- Helper for `packD`: the `k` low-order base-256 digits of `w`,
least significant first. -/
def packDAux : ℕ → ℕ → List ℕ
  | 0, _ => []
  | k + 1, w => w % 256 :: packDAux k (w / 256)
/-- `struct.pack('d', x)`: the eight little-endian bytes of the 64-bit
pattern `w` of the double `x`. -/
def packD (w : ℕ) : List ℕ := packDAux 8 w
/-- `struct.unpack('d', bs)`: rebuild the 64-bit pattern from little-endian
bytes. -/
def unpackD (bs : List ℕ) : ℕ := bs.foldr (fun b acc => b + 256 * acc) 0
/-- `Mandelbrot.complex_list_to_bytes` (fractal.py line 80):
`b''.join([struct.pack('dd', num.real, num.imag) for num in clist])`.
A complex number is modelled by the pair of 64-bit patterns of its real and
imaginary doubles. -/
def complex_list_to_bytes (clist : List (ℕ × ℕ)) : List ℕ :=
  (clist.map (fun num => packD num.1 ++ packD num.2)).flatten
/-- `Mandelbrot.bytes_to_complex_list` (fractal.py line 84):
`[complex(*struct.unpack('dd', seq[index*16:(index+1)*16])) for index in
range(len(seq) // 16)]`. -/
def bytes_to_complex_list (seq : List ℕ) : List (ℕ × ℕ) :=
  (List.range (seq.length / 16)).map
    (fun index => (unpackD (((seq.drop (16 * index)).take 16).take 8),
                   unpackD (((seq.drop (16 * index)).take 16).drop 8)))
/-! ## The iteration kernel (`Mandelbrot.row_set_calc`, per-pixel body)

Doubles are modelled as exact rationals.  A Python `complex` is a pair of
doubles, so it is modelled as a pair of rationals.  The escape test
`abs(z[col]) < horizon` compares the complex modulus `sqrt(re^2 + im^2)`
against the horizon; in exact arithmetic this is equivalent to the squared
comparison `re^2 + im^2 < horizon^2` (proved in `escLT_iff_abs_lt` below),
which keeps the kernel computable. -/
/-- A Python `complex` value: a pair of doubles, modelled exactly. -/
structure QC where
  re : ℚ
  im : ℚ
deriving DecidableEq
/-- Squared modulus `re^2 + im^2` of a complex value. -/
def qcNormSq (z : QC) : ℚ := z.re ^ 2 + z.im ^ 2
/-- One application of `z ** 2 + c` (fractal.py line 121), with the complex
square expanded into real components. -/
def qcStep (c z : QC) : QC :=
  ⟨z.re ^ 2 - z.im ^ 2 + c.re, 2 * z.re * z.im + c.im⟩
/-- The body of `for round in range(iterations)` (lines 119-122): iterate and
record the round index only when `abs(z) < horizon` held at the start of the
round; otherwise leave the pixel state unchanged. -/
def roundStep (horizon : ℚ) (c : QC) (rnd : ℕ) (s : QC × ℚ) : QC × ℚ :=
  if qcNormSq s.1 < horizon ^ 2 then (qcStep c s.1, (rnd : ℚ)) else s
/-- The full round loop of lines 119-122 for one pixel, starting from the
decoded buffer values `z0` (iterate) and `n0` (last-round count). -/
def iterRounds (horizon : ℚ) (iterations : ℕ) (c z0 : QC) (n0 : ℚ) : QC × ℚ :=
  (List.range iterations).foldl (fun s rnd => roundStep horizon c rnd s) (z0, n0)
/-- Line 123: `if n[col] == iterations - 1: n[col] = 0`. -/
def remap (iterations : ℕ) (n : ℚ) : ℚ :=
  if n = (iterations : ℚ) - 1 then 0 else n
/-- The iterate after the round loop for one pixel. -/
def pixelZ (horizon : ℚ) (iterations : ℕ) (c z0 : QC) (n0 : ℚ) : QC :=
  (iterRounds horizon iterations c z0 n0).1
/-- The recorded count after the round loop and the remap for one pixel. -/
def pixelN (horizon : ℚ) (iterations : ℕ) (c z0 : QC) (n0 : ℚ) : ℚ :=
  remap iterations (iterRounds horizon iterations c z0 n0).2
/-- The orbit of `z ← z^2 + c` from a starting iterate. -/
def orbit (c z0 : QC) : ℕ → QC
  | 0 => z0
  | k + 1 => qcStep c (orbit c z0 k)
/-- The escape-time reading of the loop: iterate while `abs(z) < horizon`,
until escape or fuel exhaustion, counting the rounds that iterated. -/
def escapeTime (horizon : ℚ) (c : QC) : QC → ℕ → ℕ
  | _, 0 => 0
  | z, fuel + 1 =>
    if qcNormSq z < horizon ^ 2 then escapeTime horizon c (qcStep c z) fuel + 1 else 0
/-! ## The smoothing step (lines 111, 126-129)

`log_horizon = log(log(horizon)) / log(2)` is computed once per
`row_set_calc` invocation (line 111, outside the `try`; it presumes
`horizon > 1`, which holds for the horizon `2^36` set in `__init__`); being a
pure expression it is inlined below.  The bare `except` of lines 126-129
catches exactly the `ValueError` that Python's `math.log` raises on a
non-positive argument: the inner `log(abs(z))` raises when `abs(z) <= 0` and
the outer one raises when `log(abs(z)) <= 0`, and no other subexpression of
line 127 raises; in that case `q[col]` is set to `0.0` instead. -/
/-- Lines 126-129 for one pixel: the smoothed value
`n + 1 - log(log(abs(z)))/log(2) + log_horizon`, or `0.0` whenever a `log`
argument is non-positive (the `except` branch). -/
noncomputable def smoothQ (horizon : ℚ) (n : ℚ) (z : QC) : ℝ :=
  if Real.sqrt ((qcNormSq z : ℚ)) ≤ 0 ∨
      Real.log (Real.sqrt ((qcNormSq z : ℚ))) ≤ 0 then 0
  else (n : ℝ) + 1 - Real.log (Real.log (Real.sqrt ((qcNormSq z : ℚ)))) / Real.log 2
    + Real.log (Real.log ((horizon : ℚ) : ℝ)) / Real.log 2
/-- The `q[col]` value produced by the kernel for one pixel: smoothing applied
after the round loop (lines 119-122) and the remap (line 123). -/
noncomputable def pixelQ (horizon : ℚ) (iterations : ℕ) (c z0 : QC) (n0 : ℚ) : ℝ :=
  smoothQ horizon (pixelN horizon iterations c z0 n0) (pixelZ horizon iterations c z0 n0)
/-! ## The task partition (`Mandelbrot.generate_tasks`, lines 141 and 153)

`task_rows = self.dimensions[1] / num_tasks` is Python float division and
`round` is Python's built-in banker's rounding (round-half-to-even), modelled
here in exact rational arithmetic. -/
/-- Python's built-in `round` on an exact rational: round half to even. -/
def pyRound (q : ℚ) : ℤ :=
  if Int.fract q < 1 / 2 then ⌊q⌋
  else if 1 / 2 < Int.fract q then ⌊q⌋ + 1
  else if Even ⌊q⌋ then ⌊q⌋ else ⌊q⌋ + 1
/-- One partition boundary (line 153): `round(task_no * task_rows)` with
`task_rows = H / num_tasks` (line 141). -/
def taskBoundary (H : ℕ) (num_tasks : ℤ) (i : ℕ) : ℤ :=
  pyRound ((i : ℚ) * ((H : ℚ) / (num_tasks : ℚ)))
/-- Line 153: the list of row ranges
`[range(round(task_no * task_rows), round((task_no + 1) * task_rows)) for
task_no in range(num_tasks)]`, each `range(a, b)` modelled by its endpoint
pair `(a, b)`. -/
def generateRanges (H : ℕ) (num_tasks : ℤ) : List (ℤ × ℤ) :=
  (List.range num_tasks.toNat).map
    (fun task_no => (taskBoundary H num_tasks task_no,
                     taskBoundary H num_tasks (task_no + 1)))
/-! ## Buffer allocation (`Mandelbrot.generate_tasks`, lines 139-151)

The shared rows are byte records (with the `b'\n'` sentinel handled by the
codec above); here they are modelled at the decoded value level:
`struct.pack('d', 0)` is the 8-byte pattern of the double `0.0`, so the `Z`
rows (`struct.pack('d', 0) * W * 2`, line 149) decode to `W` complex zeros
and the `N`/`Q` rows (lines 148/150) decode to `W` real zeros. -/
/-- `Mandelbrot._X_BOUNDARY = (-2.25, 0.75)` (line 74). -/
def X_BOUNDARY : ℚ × ℚ := (-9 / 4, 3 / 4)
/-- `Mandelbrot._Y_BOUNDARY = (-1.25, 1.25)` (line 75). -/
def Y_BOUNDARY : ℚ × ℚ := (-5 / 4, 5 / 4)
/-- Lines 139-140: `(a1 - a0) / (n - 1) if n > 1 else 0`. -/
def axisDelta (a0 a1 : ℚ) (n : ℕ) : ℚ :=
  if 1 < n then (a1 - a0) / ((n : ℚ) - 1) else 0
/-- Lines 143-144: `[a0 + delta * index for index in range(n)]`. -/
def axisSamples (a0 a1 : ℚ) (n : ℕ) : List ℚ :=
  (List.range n).map (fun index : ℕ => a0 + axisDelta a0 a1 n * (index : ℚ))
/-- Line 147, decoded: row `j` holds `complex(X[i], Y[j])` for `i < W`. -/
def cInitRows (x0 x1 y0 y1 : ℚ) (W H : ℕ) : List (List QC) :=
  (axisSamples y0 y1 H).map
    (fun imag => (axisSamples x0 x1 W).map (fun real => ⟨real, imag⟩))
/-- Line 149, decoded: `struct.pack('d', 0) * W * 2` is `16W` zero bytes,
i.e. `W` complex zeros, for each of the `H` rows. -/
def zInitRows (W H : ℕ) : List (List QC) :=
  List.replicate H (List.replicate W ⟨0, 0⟩)
/-- Line 148, decoded: `struct.pack('d', 0) * W` is `W` real zeros per row. -/
def nInitRows (W H : ℕ) : List (List ℚ) :=
  List.replicate H (List.replicate W 0)
/-- Line 150, decoded: same zero seeding for the `Q` rows. -/
def qInitRows (W H : ℕ) : List (List ℚ) :=
  List.replicate H (List.replicate W 0)
/-- Line 151: `[0 for _ in range(num_tasks)]` — all completion flags unset. -/
def dInitFlags (num_tasks : ℤ) : List ℕ :=
  List.replicate num_tasks.toNat 0
/-! ## `Mandelbrot.generate_tasks` as a whole (lines 138-156)

Python evaluates `task_rows = self.dimensions[1] / num_tasks` (line 141)
before allocating any shared buffer (lines 147-151); with `num_tasks = 0`
that true division raises `ZeroDivisionError`, so the error escapes to the
caller with no buffers created.  No other `num_tasks` value fails: for
`num_tasks < 0` both `range(num_tasks)` occurrences (lines 151, 153) are
empty, and for `num_tasks > H` the partition simply contains empty ranges. -/
/-- The only exception `generate_tasks` itself can raise. -/
inductive PyError where
  | zeroDivision
deriving DecidableEq
/-- The value returned by `generate_tasks`: the task row ranges and the
decoded shared buffers `(C, N, Z, Q, D)` of line 156. -/
structure GenResult where
  ranges : List (ℤ × ℤ)
  cRows : List (List QC)
  nRows : List (List ℚ)
  zRows : List (List QC)
  qRows : List (List ℚ)
  dFlags : List ℕ
/-- `Mandelbrot.generate_tasks` (lines 138-156) at the decoded value level. -/
def generate_tasks (W H : ℕ) (x0 x1 y0 y1 : ℚ) (num_tasks : ℤ) :
    Except PyError GenResult :=
  if num_tasks = 0 then .error .zeroDivision
  else .ok { ranges := generateRanges H num_tasks
           , cRows := cInitRows x0 x1 y0 y1 W H
           , nRows := nInitRows W H
           , zRows := zInitRows W H
           , qRows := qInitRows W H
           , dFlags := dInitFlags num_tasks }
/-! ## `Mandelbrot.run_task` (lines 100-106)

The wrapped call `function(*parameters)` mutates the shared buffers, so it is
modelled as a state transformer on an abstract buffer state `β` that returns
the final buffer state together with either a value (normal return) or a
raised exception.  `run_task` raises its duplicate-completion `Exception`
*before* calling the function when the flag is already set, and sets the flag
*after* the call returns normally (line 105), so a raising call leaves the
flag untouched. -/
/-- The failure modes observable through `run_task`: its own
duplicate-completion `Exception`, or an exception raised by the wrapped
function and propagated unchanged. -/
inductive RunError (ε : Type) where
  | duplicate
  | raised (e : ε)
/-- `Mandelbrot.run_task` (lines 100-106).  `done_array[task_no]` truthiness
is `≠ 0`; the result carries the final `done_array` and buffer state. -/
def run_task {β γ ε : Type} (task_no : ℕ) (done_array : List ℕ)
    (function : β → β × Except ε γ) (bufs : β) :
    (List ℕ × β) × Except (RunError ε) γ :=
  if done_array.getD task_no 0 ≠ 0 then ((done_array, bufs), .error .duplicate)
  else
    match function bufs with
    | (bufs', .error e) => ((done_array, bufs'), .error (.raised e))
    | (bufs', .ok value) => ((done_array.set task_no 1, bufs'), .ok value)
/-! ## Output assembly (`Mandelbrot.data_to_image_matrix`, lines 87-88) -/
/-- `struct.pack('d' * W, *vs)` (line 134's write side): the concatenated
8-byte encodings of the row's doubles. -/
def pack_doubles (vs : List ℕ) : List ℕ := (vs.map packD).flatten
/-- `struct.unpack('d' * W, bs)`: the `W` doubles of an `8W`-byte string. -/
def unpack_doubles (W : ℕ) (bs : List ℕ) : List ℕ :=
  (List.range W).map (fun index => unpackD ((bs.drop (8 * index)).take 8))
/-- `Mandelbrot.data_to_image_matrix` (line 88):
`[struct.unpack('d' * self.dimensions[0], row_data[:-1]) for row_data in
data[3]]` — `data[3]` is the `Q` buffer of line 156's tuple. -/
def data_to_image_matrix (W : ℕ) (qRows : List (List ℕ)) : List (List ℕ) :=
  qRows.map (fun row_data => unpack_doubles W row_data.dropLast)
/-- Witness for C3 on a two-element list whose payloads include an all-ones
64-bit pattern (a NaN representation) and a sign-bit-only pattern. -/
theorem packDAux_length (k w : ℕ) : (packDAux k w).length = k := by
  induction k generalizing w with
  | zero => rfl
  | succ k ih => simp [packDAux, ih]
theorem packD_length (w : ℕ) : (packD w).length = 8 := packDAux_length 8 w
theorem unpackD_packDAux (k w : ℕ) : unpackD (packDAux k w) = w % 256 ^ k := by
  induction k generalizing w with
  | zero => simp [packDAux, unpackD, Nat.mod_one]
  | succ k ih =>
    have h : (256 : ℕ) ^ (k + 1) = 256 * 256 ^ k := by ring
    simp only [packDAux, unpackD, List.foldr_cons] at *
    rw [ih, h, Nat.mod_mul]
theorem unpackD_packD (w : ℕ) (hw : w < 2 ^ 64) : unpackD (packD w) = w := by
  have h : (256 : ℕ) ^ 8 = 2 ^ 64 := by norm_num
  rw [packD, unpackD_packDAux, h, Nat.mod_eq_of_lt hw]
theorem complex_list_to_bytes_nil : complex_list_to_bytes [] = [] := rfl
theorem complex_list_to_bytes_cons (p : ℕ × ℕ) (ps : List (ℕ × ℕ)) :
    complex_list_to_bytes (p :: ps) =
      (packD p.1 ++ packD p.2) ++ complex_list_to_bytes ps := by
  simp [complex_list_to_bytes]
theorem complex_list_to_bytes_length (clist : List (ℕ × ℕ)) :
    (complex_list_to_bytes clist).length = 16 * clist.length := by
  induction clist with
  | nil => rfl
  | cons p ps ih =>
    rw [complex_list_to_bytes_cons]
    simp [packD_length, ih, List.length_append]
    ring
theorem bytes_to_complex_list_nil : bytes_to_complex_list [] = [] := rfl
/-- Peeling one 16-byte block off the front of the decoder's input. -/
theorem bytes_to_complex_list_block (blk rest : List ℕ) (hb : blk.length = 16) :
    bytes_to_complex_list (blk ++ rest) =
      (unpackD (blk.take 8), unpackD (blk.drop 8)) :: bytes_to_complex_list rest := by
  have hlen : (blk ++ rest).length = 16 + rest.length := by simp [hb]
  have hdiv : (blk ++ rest).length / 16 = rest.length / 16 + 1 := by
    rw [hlen, Nat.add_comm, Nat.add_div_right _ (by norm_num)]
  unfold bytes_to_complex_list
  rw [hdiv, List.range_succ_eq_map]
  simp only [List.map_cons, List.map_map]
  congr 1
  · have htake : (blk ++ rest).take 16 = blk := by
      rw [← hb, List.take_left]
    simp only [Nat.mul_zero, List.drop_zero, htake]
  · apply List.map_congr_left
    intro i _
    have hdrop : (blk ++ rest).drop (16 * (i + 1)) = rest.drop (16 * i) := by
      have : 16 * (i + 1) = 16 * i + 16 := by ring
      rw [this, Nat.add_comm, ← List.drop_drop, ← hb, List.drop_left]
    simp only [Function.comp, hdrop, hlen, hb]
/-- Decoding inverts encoding, pattern for pattern: any 64-bit payloads
(finite, infinite or NaN doubles alike) survive the round trip. -/
theorem bytes_to_complex_list_complex_list_to_bytes (clist : List (ℕ × ℕ))
    (hw : ∀ p ∈ clist, p.1 < 2 ^ 64 ∧ p.2 < 2 ^ 64) :
    bytes_to_complex_list (complex_list_to_bytes clist) = clist := by
  induction clist with
  | nil => rfl
  | cons p ps ih =>
    have hp := hw p (List.mem_cons_self p ps)
    rw [complex_list_to_bytes_cons,
      bytes_to_complex_list_block _ _ (by simp [packD_length]),
      ih (fun q hq => hw q (List.mem_cons_of_mem p hq))]
    have htake : (packD p.1 ++ packD p.2).take 8 = packD p.1 := by
      rw [← packD_length p.1, List.take_left]
    have hdrop : (packD p.1 ++ packD p.2).drop 8 = packD p.2 := by
      rw [← packD_length p.1, List.drop_left]
    rw [htake, hdrop, unpackD_packD _ hp.1, unpackD_packD _ hp.2]
/-- The squared escape test used by the embedding agrees with the source's
`abs(z) < horizon` (complex modulus against a positive horizon). -/
theorem escLT_iff_abs_lt (z : QC) (horizon : ℚ) (hh : 0 < horizon) :
    qcNormSq z < horizon ^ 2 ↔
      Real.sqrt ((qcNormSq z : ℚ)) < (horizon : ℝ) := by
  rw [Real.sqrt_lt' (by exact_mod_cast hh)]
  constructor
  · intro h
    exact_mod_cast h
  · intro h
    exact_mod_cast h
theorem orbit_shift (c z : QC) (k : ℕ) :
    orbit c z (k + 1) = orbit c (qcStep c z) k := by
  induction k with
  | zero => rfl
  | succ k ih => rw [orbit, ih, orbit]
theorem iterRounds_succ (horizon : ℚ) (I : ℕ) (c z0 : QC) (n0 : ℚ) :
    iterRounds horizon (I + 1) c z0 n0 =
      roundStep horizon c I (iterRounds horizon I c z0 n0) := by
  unfold iterRounds
  rw [List.range_succ, List.foldl_append, List.foldl_cons, List.foldl_nil]
theorem escapeTime_le (horizon : ℚ) (c : QC) (z : QC) (fuel : ℕ) :
    escapeTime horizon c z fuel ≤ fuel := by
  induction fuel generalizing z with
  | zero => exact Nat.le_refl 0
  | succ fuel ih =>
    rw [escapeTime]
    split
    · exact Nat.succ_le_succ (ih _)
    · exact Nat.zero_le _
theorem escapeTime_below (horizon : ℚ) (c : QC) (z : QC) (fuel : ℕ) :
    ∀ k < escapeTime horizon c z fuel, qcNormSq (orbit c z k) < horizon ^ 2 := by
  induction fuel generalizing z with
  | zero => intro k hk; exact absurd hk (Nat.not_lt_zero k)
  | succ fuel ih =>
    intro k hk
    rw [escapeTime] at hk
    split at hk
    · match k with
      | 0 => exact ‹qcNormSq z < horizon ^ 2›
      | j + 1 =>
        rw [orbit_shift]
        exact ih (qcStep c z) j (Nat.lt_of_succ_lt_succ hk)
    · exact absurd hk (Nat.not_lt_zero k)
theorem escapeTime_stop (horizon : ℚ) (c : QC) (z : QC) (fuel : ℕ)
    (h : escapeTime horizon c z fuel < fuel) :
    ¬ qcNormSq (orbit c z (escapeTime horizon c z fuel)) < horizon ^ 2 := by
  induction fuel generalizing z with
  | zero => exact absurd h (Nat.not_lt_zero _)
  | succ fuel ih =>
    by_cases hc : qcNormSq z < horizon ^ 2
    · rw [escapeTime, if_pos hc] at h ⊢
      rw [orbit_shift]
      exact ih (qcStep c z) (Nat.lt_of_succ_lt_succ h)
    · rw [escapeTime, if_neg hc]
      exact hc
theorem escapeTime_succ_stable (horizon : ℚ) (c : QC) (z : QC) (fuel : ℕ)
    (h : escapeTime horizon c z fuel < fuel) :
    escapeTime horizon c z (fuel + 1) = escapeTime horizon c z fuel := by
  induction fuel generalizing z with
  | zero => exact absurd h (Nat.not_lt_zero _)
  | succ fuel ih =>
    by_cases hc : qcNormSq z < horizon ^ 2
    · rw [escapeTime, if_pos hc] at h
      rw [escapeTime, if_pos hc, ih (qcStep c z) (Nat.lt_of_succ_lt_succ h),
        escapeTime, if_pos hc]
    · rw [escapeTime, if_neg hc, escapeTime, if_neg hc]
theorem escapeTime_succ_full (horizon : ℚ) (c : QC) (z : QC) (fuel : ℕ)
    (h : escapeTime horizon c z fuel = fuel) :
    escapeTime horizon c z (fuel + 1) =
      if qcNormSq (orbit c z fuel) < horizon ^ 2 then fuel + 1 else fuel := by
  induction fuel generalizing z with
  | zero => simp [escapeTime, orbit]
  | succ fuel ih =>
    by_cases hc : qcNormSq z < horizon ^ 2
    · rw [escapeTime, if_pos hc] at h
      rw [escapeTime, if_pos hc, ih (qcStep c z) (Nat.succ_injective h), orbit_shift]
      by_cases hb : qcNormSq (orbit c (qcStep c z) fuel) < horizon ^ 2
      · rw [if_pos hb, if_pos hb]
      · rw [if_neg hb, if_neg hb]
    · rw [escapeTime, if_neg hc] at h
      exact absurd h.symm (Nat.succ_ne_zero fuel)
theorem escapeTime_pos (horizon : ℚ) (c : QC) (z : QC) (fuel : ℕ)
    (h0 : qcNormSq z < horizon ^ 2) (hf : 1 ≤ fuel) :
    1 ≤ escapeTime horizon c z fuel := by
  cases fuel with
  | zero => exact absurd hf (by norm_num)
  | succ fuel =>
    rw [escapeTime, if_pos h0]
    exact Nat.succ_le_succ (Nat.zero_le _)
/-- Net effect of the round loop: the iterate is the orbit point at the escape
time, and the count is the index of the last round that iterated (or the
initial decoded value when no round iterated at all). -/
theorem iterRounds_eq (horizon : ℚ) (c z0 : QC) (n0 : ℚ) (I : ℕ) :
    iterRounds horizon I c z0 n0 =
      (orbit c z0 (escapeTime horizon c z0 I),
       if escapeTime horizon c z0 I = 0 then n0
       else ((escapeTime horizon c z0 I - 1 : ℕ) : ℚ)) := by
  induction I with
  | zero => simp [iterRounds, escapeTime, orbit]
  | succ I ih =>
    rw [iterRounds_succ, ih]
    by_cases h : escapeTime horizon c z0 I < I
    · have hstop := escapeTime_stop horizon c z0 I h
      rw [escapeTime_succ_stable horizon c z0 I h]
      simp [roundStep, hstop]
    · have he : escapeTime horizon c z0 I = I :=
        Nat.le_antisymm (escapeTime_le horizon c z0 I) (Nat.not_lt.mp h)
      have hfull := escapeTime_succ_full horizon c z0 I he
      by_cases hb : qcNormSq (orbit c z0 I) < horizon ^ 2
      · rw [hfull, if_pos hb, he]
        simp [roundStep, hb, orbit, Nat.succ_sub_one]
      · rw [hfull, if_neg hb, he]
        simp [roundStep, hb]
/-- **C1.** For every pixel of a row processed by `row_set_calc` with iteration
cap `I` and horizon `Hz`: the loop runs `I` rounds, each round updating
`z ← z^2 + c` and `n ← round` exactly when `abs(z) < Hz` held at the start of
the round (`roundStep` recurrence conjunct, plus the conjunct identifying the
squared escape test with `abs(z) < Hz`); the net effect is to iterate until
escape or until the `I` rounds are exhausted (`escapeTime` conjuncts), with
`n` ending at the index of the last round that iterated; afterwards line 123
remaps `n` to `0` exactly when it equals `I - 1`.  Stated for kernel inputs
with `Hz > 0`, `I ≥ 1` and an unescaped starting iterate, which covers every
pixel of an actual computation (`z` rows start at `0` and `Hz = 2^36`). -/
theorem c1_kernel_rounds_escape_remap (horizon : ℚ) (I : ℕ) (c z0 : QC) (n0 : ℚ)
    (hh : 0 < horizon) (hI : 1 ≤ I) (h0 : qcNormSq z0 < horizon ^ 2) :
    (∀ w : QC, qcNormSq w < horizon ^ 2 ↔
      Real.sqrt ((qcNormSq w : ℚ)) < (horizon : ℝ)) ∧
    (∀ k : ℕ, iterRounds horizon (k + 1) c z0 n0 =
        roundStep horizon c k (iterRounds horizon k c z0 n0)) ∧
    1 ≤ escapeTime horizon c z0 I ∧
    escapeTime horizon c z0 I ≤ I ∧
    (∀ k < escapeTime horizon c z0 I, qcNormSq (orbit c z0 k) < horizon ^ 2) ∧
    (escapeTime horizon c z0 I < I →
      ¬ qcNormSq (orbit c z0 (escapeTime horizon c z0 I)) < horizon ^ 2) ∧
    pixelZ horizon I c z0 n0 = orbit c z0 (escapeTime horizon c z0 I) ∧
    (iterRounds horizon I c z0 n0).2 =
      ((escapeTime horizon c z0 I - 1 : ℕ) : ℚ) ∧
    pixelN horizon I c z0 n0 =
      (if escapeTime horizon c z0 I - 1 = I - 1 then 0
       else ((escapeTime horizon c z0 I - 1 : ℕ) : ℚ)) := by
  have hE1 : 1 ≤ escapeTime horizon c z0 I := escapeTime_pos horizon c z0 I h0 hI
  have hEI : escapeTime horizon c z0 I ≤ I := escapeTime_le horizon c z0 I
  have hiter := iterRounds_eq horizon c z0 n0 I
  have hsnd : (iterRounds horizon I c z0 n0).2 =
      ((escapeTime horizon c z0 I - 1 : ℕ) : ℚ) := by
    rw [hiter]
    exact if_neg (by omega)
  refine ⟨fun w => escLT_iff_abs_lt w horizon hh,
    fun k => iterRounds_succ horizon k c z0 n0, hE1, hEI,
    escapeTime_below horizon c z0 I, escapeTime_stop horizon c z0 I, ?_, hsnd, ?_⟩
  · rw [pixelZ, hiter]
  · rw [pixelN, remap, hsnd]
    by_cases hEq : escapeTime horizon c z0 I - 1 = I - 1
    · rw [if_pos hEq, if_pos]
      rw [hEq, Nat.cast_sub hI, Nat.cast_one]
    · rw [if_neg hEq, if_neg]
      intro hq
      apply hEq
      have hcast : ((escapeTime horizon c z0 I - 1 : ℕ) : ℚ) =
          ((I - 1 : ℕ) : ℚ) := by
        rw [hq, Nat.cast_sub hI, Nat.cast_one]
      exact_mod_cast hcast
/-- Witness for C1 at `horizon = 4`, `I = 3`, `c = 3 + 0i`, `z0 = 0`,
`n0 = 0` (the escape time there is `2`). -/
theorem c1_kernel_rounds_escape_remap_witness :
    ((0 : ℚ) < 4 ∧ 1 ≤ 3 ∧ qcNormSq ⟨0, 0⟩ < (4 : ℚ) ^ 2) ∧
    ((∀ w : QC, qcNormSq w < (4 : ℚ) ^ 2 ↔
      Real.sqrt ((qcNormSq w : ℚ)) < ((4 : ℚ) : ℝ)) ∧
    (∀ k : ℕ, iterRounds 4 (k + 1) ⟨3, 0⟩ ⟨0, 0⟩ 0 =
        roundStep 4 ⟨3, 0⟩ k (iterRounds 4 k ⟨3, 0⟩ ⟨0, 0⟩ 0)) ∧
    1 ≤ escapeTime 4 ⟨3, 0⟩ ⟨0, 0⟩ 3 ∧
    escapeTime 4 ⟨3, 0⟩ ⟨0, 0⟩ 3 ≤ 3 ∧
    (∀ k < escapeTime 4 ⟨3, 0⟩ ⟨0, 0⟩ 3,
      qcNormSq (orbit ⟨3, 0⟩ ⟨0, 0⟩ k) < (4 : ℚ) ^ 2) ∧
    (escapeTime 4 ⟨3, 0⟩ ⟨0, 0⟩ 3 < 3 →
      ¬ qcNormSq (orbit ⟨3, 0⟩ ⟨0, 0⟩ (escapeTime 4 ⟨3, 0⟩ ⟨0, 0⟩ 3)) <
        (4 : ℚ) ^ 2) ∧
    pixelZ 4 3 ⟨3, 0⟩ ⟨0, 0⟩ 0 = orbit ⟨3, 0⟩ ⟨0, 0⟩ (escapeTime 4 ⟨3, 0⟩ ⟨0, 0⟩ 3) ∧
    (iterRounds 4 3 ⟨3, 0⟩ ⟨0, 0⟩ 0).2 =
      ((escapeTime 4 ⟨3, 0⟩ ⟨0, 0⟩ 3 - 1 : ℕ) : ℚ) ∧
    pixelN 4 3 ⟨3, 0⟩ ⟨0, 0⟩ 0 =
      (if escapeTime 4 ⟨3, 0⟩ ⟨0, 0⟩ 3 - 1 = 3 - 1 then 0
       else ((escapeTime 4 ⟨3, 0⟩ ⟨0, 0⟩ 3 - 1 : ℕ) : ℚ))) :=
  ⟨⟨by norm_num, by norm_num, by norm_num [qcNormSq]⟩,
    c1_kernel_rounds_escape_remap 4 3 ⟨3, 0⟩ ⟨0, 0⟩ 0 (by norm_num) (by norm_num)
      (by norm_num [qcNormSq])⟩
/-- **C5.** After the iteration and remap steps the kernel sets
`Q[k] = N[k] + 1 - log2(log(abs(Z[k]))) + logHorizon` with
`logHorizon = log2(log(Hz))`, and exactly when that expression is undefined —
the argument of either logarithm is non-positive, i.e. `abs(Z[k]) <= 1` — it
sets `Q[k] = 0.0` instead, never surfacing the domain error.  The hypothesis
`1 < Hz` records that line 111 itself (outside the `try`) needs `log(Hz) > 0`;
the code's horizon `2^36` satisfies it. -/
theorem c5_smoothing_formula_and_fallback (horizon : ℚ) (I : ℕ) (c z0 : QC)
    (n0 : ℚ) (_hh : 1 < horizon) :
    pixelQ horizon I c z0 n0 =
      if Real.sqrt ((qcNormSq (pixelZ horizon I c z0 n0) : ℚ)) ≤ 1 then 0
      else (pixelN horizon I c z0 n0 : ℝ) + 1
        - Real.log (Real.log (Real.sqrt
            ((qcNormSq (pixelZ horizon I c z0 n0) : ℚ)))) / Real.log 2
        + Real.log (Real.log ((horizon : ℚ) : ℝ)) / Real.log 2 := by
  unfold pixelQ smoothQ
  have hnn : (0 : ℝ) ≤ Real.sqrt ((qcNormSq (pixelZ horizon I c z0 n0) : ℚ)) :=
    Real.sqrt_nonneg _
  have hiff : (Real.sqrt ((qcNormSq (pixelZ horizon I c z0 n0) : ℚ)) ≤ 0 ∨
      Real.log (Real.sqrt ((qcNormSq (pixelZ horizon I c z0 n0) : ℚ))) ≤ 0) ↔
      Real.sqrt ((qcNormSq (pixelZ horizon I c z0 n0) : ℚ)) ≤ 1 := by
    constructor
    · rintro (h | h)
      · linarith
      · by_contra hgt
        push_neg at hgt
        exact absurd h (not_le.mpr (Real.log_pos hgt))
    · intro h
      by_cases h0 : Real.sqrt ((qcNormSq (pixelZ horizon I c z0 n0) : ℚ)) ≤ 0
      · exact Or.inl h0
      · exact Or.inr (Real.log_nonpos hnn h)
  rw [if_congr hiff rfl rfl]
/-- Witness for C5 at `horizon = 4`, `I = 1`, `c = 3 + 0i`, `z0 = 0`,
`n0 = 0`. -/
theorem c5_smoothing_formula_and_fallback_witness :
    (1 : ℚ) < 4 ∧
    pixelQ 4 1 ⟨3, 0⟩ ⟨0, 0⟩ 0 =
      (if Real.sqrt ((qcNormSq (pixelZ 4 1 ⟨3, 0⟩ ⟨0, 0⟩ 0) : ℚ)) ≤ 1 then 0
       else (pixelN 4 1 ⟨3, 0⟩ ⟨0, 0⟩ 0 : ℝ) + 1
        - Real.log (Real.log (Real.sqrt
            ((qcNormSq (pixelZ 4 1 ⟨3, 0⟩ ⟨0, 0⟩ 0) : ℚ)))) / Real.log 2
        + Real.log (Real.log (((4 : ℚ) : ℝ))) / Real.log 2) :=
  ⟨by norm_num, c5_smoothing_formula_and_fallback 4 1 ⟨3, 0⟩ ⟨0, 0⟩ 0 (by norm_num)⟩
theorem escapeTime_step_cert (horizon : ℚ) (c z z' : QC) (fuel : ℕ)
    (hb : qcNormSq z < horizon ^ 2) (hs : qcStep c z = z') :
    escapeTime horizon c z (fuel + 1) = escapeTime horizon c z' fuel + 1 := by
  rw [escapeTime, if_pos hb, hs]
theorem escapeTime_stop_cert (horizon : ℚ) (c z : QC) (fuel : ℕ)
    (hb : ¬ qcNormSq z < horizon ^ 2) :
    escapeTime horizon c z (fuel + 1) = 0 := by
  rw [escapeTime, if_neg hb]
theorem escapeTime_eq_of_le (horizon : ℚ) (c z : QC) (fuel fuel' : ℕ)
    (h : escapeTime horizon c z fuel < fuel) (hle : fuel ≤ fuel') :
    escapeTime horizon c z fuel' = escapeTime horizon c z fuel := by
  induction fuel', hle using Nat.le_induction with
  | base => rfl
  | succ n hn ih =>
    rw [escapeTime_succ_stable horizon c z n (by rw [ih]; omega), ih]
/-- The trajectory of `c = 3 + 0i` from the zero-seeded iterate under the
code's horizon `2^36`: six rounds iterate (`0, 3, 12, 147, 21612, 467078547`
all lie inside the horizon) and the seventh finds `abs(z) >= 2^36`. -/
theorem c8_escapeTime_seven :
    escapeTime ((2 : ℚ) ^ 36) ⟨3, 0⟩ ⟨0, 0⟩ 7 = 6 := by
  have e1 : escapeTime ((2 : ℚ) ^ 36) ⟨3, 0⟩ ⟨218162369067631212, 0⟩ 1 = 0 :=
    escapeTime_stop_cert _ _ _ 0 (by norm_num [qcNormSq])
  have e2 : escapeTime ((2 : ℚ) ^ 36) ⟨3, 0⟩ ⟨467078547, 0⟩ 2 = 1 := by
    have h := escapeTime_step_cert ((2 : ℚ) ^ 36) ⟨3, 0⟩ ⟨467078547, 0⟩
      ⟨218162369067631212, 0⟩ 1 (by norm_num [qcNormSq]) (by norm_num [qcStep])
    rw [e1] at h
    exact h
  have e3 : escapeTime ((2 : ℚ) ^ 36) ⟨3, 0⟩ ⟨21612, 0⟩ 3 = 2 := by
    have h := escapeTime_step_cert ((2 : ℚ) ^ 36) ⟨3, 0⟩ ⟨21612, 0⟩
      ⟨467078547, 0⟩ 2 (by norm_num [qcNormSq]) (by norm_num [qcStep])
    rw [e2] at h
    exact h
  have e4 : escapeTime ((2 : ℚ) ^ 36) ⟨3, 0⟩ ⟨147, 0⟩ 4 = 3 := by
    have h := escapeTime_step_cert ((2 : ℚ) ^ 36) ⟨3, 0⟩ ⟨147, 0⟩
      ⟨21612, 0⟩ 3 (by norm_num [qcNormSq]) (by norm_num [qcStep])
    rw [e3] at h
    exact h
  have e5 : escapeTime ((2 : ℚ) ^ 36) ⟨3, 0⟩ ⟨12, 0⟩ 5 = 4 := by
    have h := escapeTime_step_cert ((2 : ℚ) ^ 36) ⟨3, 0⟩ ⟨12, 0⟩
      ⟨147, 0⟩ 4 (by norm_num [qcNormSq]) (by norm_num [qcStep])
    rw [e4] at h
    exact h
  have e6 : escapeTime ((2 : ℚ) ^ 36) ⟨3, 0⟩ ⟨3, 0⟩ 6 = 5 := by
    have h := escapeTime_step_cert ((2 : ℚ) ^ 36) ⟨3, 0⟩ ⟨3, 0⟩
      ⟨12, 0⟩ 5 (by norm_num [qcNormSq]) (by norm_num [qcStep])
    rw [e5] at h
    exact h
  have h := escapeTime_step_cert ((2 : ℚ) ^ 36) ⟨3, 0⟩ ⟨0, 0⟩
    ⟨3, 0⟩ 6 (by norm_num [qcNormSq]) (by norm_num [qcStep])
  rw [e6] at h
  exact h
theorem c8_orbit_six :
    orbit ⟨3, 0⟩ ⟨0, 0⟩ 6 = ⟨218162369067631212, 0⟩ := by
  have o1 : orbit ⟨3, 0⟩ ⟨0, 0⟩ 1 = ⟨3, 0⟩ := by
    have h : orbit ⟨3, 0⟩ ⟨0, 0⟩ 1 = qcStep ⟨3, 0⟩ ⟨0, 0⟩ := rfl
    rw [h]; norm_num [qcStep]
  have o2 : orbit ⟨3, 0⟩ ⟨0, 0⟩ 2 = ⟨12, 0⟩ := by
    have h : orbit ⟨3, 0⟩ ⟨0, 0⟩ 2 = qcStep ⟨3, 0⟩ (orbit ⟨3, 0⟩ ⟨0, 0⟩ 1) := rfl
    rw [h, o1]; norm_num [qcStep]
  have o3 : orbit ⟨3, 0⟩ ⟨0, 0⟩ 3 = ⟨147, 0⟩ := by
    have h : orbit ⟨3, 0⟩ ⟨0, 0⟩ 3 = qcStep ⟨3, 0⟩ (orbit ⟨3, 0⟩ ⟨0, 0⟩ 2) := rfl
    rw [h, o2]; norm_num [qcStep]
  have o4 : orbit ⟨3, 0⟩ ⟨0, 0⟩ 4 = ⟨21612, 0⟩ := by
    have h : orbit ⟨3, 0⟩ ⟨0, 0⟩ 4 = qcStep ⟨3, 0⟩ (orbit ⟨3, 0⟩ ⟨0, 0⟩ 3) := rfl
    rw [h, o3]; norm_num [qcStep]
  have o5 : orbit ⟨3, 0⟩ ⟨0, 0⟩ 5 = ⟨467078547, 0⟩ := by
    have h : orbit ⟨3, 0⟩ ⟨0, 0⟩ 5 = qcStep ⟨3, 0⟩ (orbit ⟨3, 0⟩ ⟨0, 0⟩ 4) := rfl
    rw [h, o4]; norm_num [qcStep]
  have h : orbit ⟨3, 0⟩ ⟨0, 0⟩ 6 = qcStep ⟨3, 0⟩ (orbit ⟨3, 0⟩ ⟨0, 0⟩ 5) := rfl
  rw [h, o5]; norm_num [qcStep]
theorem c8_escapeTime_ge (I : ℕ) (hI : 7 ≤ I) :
    escapeTime ((2 : ℚ) ^ 36) ⟨3, 0⟩ ⟨0, 0⟩ I = 6 := by
  rw [escapeTime_eq_of_le ((2 : ℚ) ^ 36) ⟨3, 0⟩ ⟨0, 0⟩ 7 I
    (by rw [c8_escapeTime_seven]; omega) hI, c8_escapeTime_seven]
theorem c8_pixelN_eq_five (I : ℕ) (hI : 7 ≤ I) :
    pixelN ((2 : ℚ) ^ 36) I ⟨3, 0⟩ ⟨0, 0⟩ 0 = 5 := by
  have h2 : ((orbit ⟨3, 0⟩ ⟨0, 0⟩ 6,
      if (6 : ℕ) = 0 then (0 : ℚ) else ((6 - 1 : ℕ) : ℚ))).2 = 5 := by norm_num
  have hne : ¬ (5 : ℚ) = (I : ℚ) - 1 := by
    intro h
    have h6 : (I : ℚ) = 6 := by linarith
    have hI6 : I = 6 := by exact_mod_cast h6
    omega
  rw [pixelN, iterRounds_eq, c8_escapeTime_ge I hI, h2, remap, if_neg hne]
/-- **C8 counterexample.** The constant `c = 3 + 0i` lies outside the disk of
radius 2, yet running the kernel from the initial buffer state (`z0 = 0`,
`n0 = 0`, the code's horizon `2^36`, cap `I = 7`) does not yield `N = 0`:
the zero-seeded iterate needs six rounds to pass the `2^36` horizon, so
`N = 5`.  The claim's "escape on the first round, `N[k] = 0`" is false. -/
theorem c8_first_round_escape_counterexample :
    (2 : ℚ) ^ 2 < qcNormSq ⟨3, 0⟩ ∧
    pixelN ((2 : ℚ) ^ 36) 7 ⟨3, 0⟩ ⟨0, 0⟩ 0 ≠ 0 := by
  constructor
  · norm_num [qcNormSq]
  · rw [c8_pixelN_eq_five 7 (le_refl 7)]
    norm_num
/-- **C8 (amended).** For the example constant `c = 3 + 0i` outside the disk
of radius 2, run from the initial buffer state (`z0 = 0`) with the code's
horizon `2^36` and any cap `I ≥ 7`: the pixel does escape, but only after six
rounds (the code seeds `z0 = 0`, so `z1 = c`, and escape is measured against
`2^36`, not 2), leaving `N = 5` — not `0` — and `Q` is computed via the main
smoothing formula (the final `abs(Z) > 1`, so the `0.0` fallback is not
taken). -/
theorem c8_outside_disk_escape_amended (I : ℕ) (hI : 7 ≤ I) :
    (2 : ℚ) ^ 2 < qcNormSq ⟨3, 0⟩ ∧
    pixelN ((2 : ℚ) ^ 36) I ⟨3, 0⟩ ⟨0, 0⟩ 0 = 5 ∧
    pixelZ ((2 : ℚ) ^ 36) I ⟨3, 0⟩ ⟨0, 0⟩ 0 = ⟨218162369067631212, 0⟩ ∧
    1 < Real.sqrt ((qcNormSq (pixelZ ((2 : ℚ) ^ 36) I ⟨3, 0⟩ ⟨0, 0⟩ 0) : ℚ)) ∧
    pixelQ ((2 : ℚ) ^ 36) I ⟨3, 0⟩ ⟨0, 0⟩ 0 =
      ((5 : ℚ) : ℝ) + 1
        - Real.log (Real.log (Real.sqrt
            ((qcNormSq (pixelZ ((2 : ℚ) ^ 36) I ⟨3, 0⟩ ⟨0, 0⟩ 0) : ℚ)))) / Real.log 2
        + Real.log (Real.log (((2 : ℚ) ^ 36 : ℚ) : ℝ)) / Real.log 2 := by
  have hz : pixelZ ((2 : ℚ) ^ 36) I ⟨3, 0⟩ ⟨0, 0⟩ 0 = ⟨218162369067631212, 0⟩ := by
    rw [pixelZ, iterRounds_eq, c8_escapeTime_ge I hI]
    exact c8_orbit_six
  have hN := c8_pixelN_eq_five I hI
  have hsq : (1 : ℝ) < ((qcNormSq (⟨218162369067631212, 0⟩ : QC) : ℚ) : ℝ) := by
    have h : (1 : ℚ) < qcNormSq ⟨218162369067631212, 0⟩ := by norm_num [qcNormSq]
    exact_mod_cast h
  have hsqrt : 1 < Real.sqrt ((qcNormSq (⟨218162369067631212, 0⟩ : QC) : ℚ) : ℝ) := by
    calc (1 : ℝ) = Real.sqrt 1 := Real.sqrt_one.symm
    _ < Real.sqrt _ := Real.sqrt_lt_sqrt (by norm_num) hsq
  have hcond : ¬ (Real.sqrt ((qcNormSq (⟨218162369067631212, 0⟩ : QC) : ℚ) : ℝ) ≤ 0 ∨
      Real.log (Real.sqrt ((qcNormSq (⟨218162369067631212, 0⟩ : QC) : ℚ) : ℝ)) ≤ 0) :=
    not_or.mpr ⟨not_le.mpr (lt_trans zero_lt_one hsqrt),
      not_le.mpr (Real.log_pos hsqrt)⟩
  refine ⟨by norm_num [qcNormSq], hN, hz, ?_, ?_⟩
  · rw [hz]
    exact hsqrt
  · rw [pixelQ, hN, hz, smoothQ, if_neg hcond]
/-- Witness for the amended C8 at `I = 7`. -/
theorem c8_outside_disk_escape_amended_witness :
    7 ≤ 7 ∧
    ((2 : ℚ) ^ 2 < qcNormSq ⟨3, 0⟩ ∧
    pixelN ((2 : ℚ) ^ 36) 7 ⟨3, 0⟩ ⟨0, 0⟩ 0 = 5 ∧
    pixelZ ((2 : ℚ) ^ 36) 7 ⟨3, 0⟩ ⟨0, 0⟩ 0 = ⟨218162369067631212, 0⟩ ∧
    1 < Real.sqrt ((qcNormSq (pixelZ ((2 : ℚ) ^ 36) 7 ⟨3, 0⟩ ⟨0, 0⟩ 0) : ℚ)) ∧
    pixelQ ((2 : ℚ) ^ 36) 7 ⟨3, 0⟩ ⟨0, 0⟩ 0 =
      ((5 : ℚ) : ℝ) + 1
        - Real.log (Real.log (Real.sqrt
            ((qcNormSq (pixelZ ((2 : ℚ) ^ 36) 7 ⟨3, 0⟩ ⟨0, 0⟩ 0) : ℚ)))) / Real.log 2
        + Real.log (Real.log (((2 : ℚ) ^ 36 : ℚ) : ℝ)) / Real.log 2) :=
  ⟨le_refl 7, c8_outside_disk_escape_amended 7 (le_refl 7)⟩
theorem pyRound_le (q : ℚ) : (pyRound q : ℚ) ≤ q + 1 / 2 := by
  have hf : (⌊q⌋ : ℚ) + Int.fract q = q := Int.floor_add_fract q
  have h0 : 0 ≤ Int.fract q := Int.fract_nonneg q
  unfold pyRound
  split_ifs with h1 h2 h3 <;> push_cast <;> linarith
theorem le_pyRound (q : ℚ) : q - 1 / 2 ≤ (pyRound q : ℚ) := by
  have hf : (⌊q⌋ : ℚ) + Int.fract q = q := Int.floor_add_fract q
  have h0 : Int.fract q < 1 := Int.fract_lt_one q
  unfold pyRound
  split_ifs with h1 h2 h3 <;> push_cast <;> linarith
theorem pyRound_intCast (n : ℤ) : pyRound (n : ℚ) = n := by
  unfold pyRound
  rw [Int.fract_intCast, Int.floor_intCast]
  norm_num
theorem pyRound_mono (q r : ℚ) (h : q ≤ r) : pyRound q ≤ pyRound r := by
  by_contra hlt
  push_neg at hlt
  have hle : pyRound r + 1 ≤ pyRound q := Int.lt_iff_add_one_le.mp hlt
  have hc : ((pyRound r : ℤ) : ℚ) + 1 ≤ ((pyRound q : ℤ) : ℚ) := by exact_mod_cast hle
  have h1 := pyRound_le q
  have h2 := le_pyRound r
  have heq : q = r := le_antisymm h (by linarith)
  rw [heq] at hlt
  exact lt_irrefl _ hlt
theorem generateRanges_getD (H : ℕ) (n : ℤ) (i : ℕ) (hi : i < n.toNat) :
    (generateRanges H n).getD i (0, 0) =
      (taskBoundary H n i, taskBoundary H n (i + 1)) := by
  unfold generateRanges
  rw [List.getD_eq_getElem?_getD, List.getElem?_map, List.getElem?_range hi]
  rfl
theorem taskBoundary_zero (H : ℕ) (n : ℤ) : taskBoundary H n 0 = 0 := by
  have h : ((0 : ℕ) : ℚ) * ((H : ℚ) / (n : ℚ)) = ((0 : ℤ) : ℚ) := by norm_num
  rw [taskBoundary, h, pyRound_intCast]
theorem taskBoundary_last (H num_tasks : ℕ) (h1 : 1 ≤ num_tasks) :
    taskBoundary H (num_tasks : ℤ) num_tasks = (H : ℤ) := by
  have hn : ((num_tasks : ℤ) : ℚ) ≠ 0 := by
    push_cast
    exact Nat.cast_ne_zero.mpr (Nat.one_le_iff_ne_zero.mp h1)
  have h : ((num_tasks : ℕ) : ℚ) * ((H : ℚ) / ((num_tasks : ℤ) : ℚ)) =
      (((H : ℕ) : ℤ) : ℚ) := by
    push_cast at hn ⊢
    field_simp
  rw [taskBoundary, h, pyRound_intCast]
theorem taskBoundary_mono (H : ℕ) (num_tasks : ℤ) (hn : 0 ≤ num_tasks)
    (i j : ℕ) (hij : i ≤ j) :
    taskBoundary H num_tasks i ≤ taskBoundary H num_tasks j := by
  apply pyRound_mono
  apply mul_le_mul_of_nonneg_right
  · exact_mod_cast hij
  · apply div_nonneg
    · exact_mod_cast Nat.zero_le H
    · exact_mod_cast hn
/-- **C2.** For `H > 0` and `1 <= num_tasks <= H` the partitioner produces
exactly `num_tasks` ranges `[round(i*H/num_tasks), round((i+1)*H/num_tasks))`
that tile `[0, H)`: the first boundary is `0`, the last is `H`, boundaries
are monotone, consecutive ranges are contiguous and non-overlapping, and the
range lengths sum to `H`. -/
theorem c2_partition_tiles_exactly (H num_tasks : ℕ) (_hH : 0 < H)
    (h1 : 1 ≤ num_tasks) (_h2 : num_tasks ≤ H) :
    (generateRanges H (num_tasks : ℤ)).length = num_tasks ∧
    (∀ i, i < num_tasks →
      (generateRanges H (num_tasks : ℤ)).getD i (0, 0) =
        (pyRound ((i : ℚ) * H / num_tasks),
         pyRound (((i : ℚ) + 1) * H / num_tasks))) ∧
    taskBoundary H (num_tasks : ℤ) 0 = 0 ∧
    taskBoundary H (num_tasks : ℤ) num_tasks = (H : ℤ) ∧
    (∀ i j, i ≤ j →
      taskBoundary H (num_tasks : ℤ) i ≤ taskBoundary H (num_tasks : ℤ) j) ∧
    (∀ i, i + 1 < num_tasks →
      ((generateRanges H (num_tasks : ℤ)).getD i (0, 0)).2 =
        ((generateRanges H (num_tasks : ℤ)).getD (i + 1) (0, 0)).1) ∧
    (∀ i j, i < j → j < num_tasks →
      ((generateRanges H (num_tasks : ℤ)).getD i (0, 0)).2 ≤
        ((generateRanges H (num_tasks : ℤ)).getD j (0, 0)).1) ∧
    (∑ i in Finset.range num_tasks,
      (((generateRanges H (num_tasks : ℤ)).getD i (0, 0)).2 -
       ((generateRanges H (num_tasks : ℤ)).getD i (0, 0)).1)) = (H : ℤ) := by
  have htoNat : ((num_tasks : ℤ)).toNat = num_tasks := Int.toNat_natCast num_tasks
  have hget : ∀ i, i < num_tasks →
      (generateRanges H (num_tasks : ℤ)).getD i (0, 0) =
        (taskBoundary H (num_tasks : ℤ) i, taskBoundary H (num_tasks : ℤ) (i + 1)) := by
    intro i hi
    exact generateRanges_getD H (num_tasks : ℤ) i (by rw [htoNat]; exact hi)
  refine ⟨?_, ?_, taskBoundary_zero H _, taskBoundary_last H num_tasks h1,
    taskBoundary_mono H _ (by positivity), ?_, ?_, ?_⟩
  · simp [generateRanges, htoNat]
  · intro i hi
    rw [hget i hi]
    unfold taskBoundary
    rw [mul_div_assoc, mul_div_assoc]
    push_cast
    rfl
  · intro i hi
    rw [hget i (by omega), hget (i + 1) hi]
  · intro i j hij hj
    rw [hget i (by omega), hget j hj]
    exact taskBoundary_mono H _ (by positivity) (i + 1) j (by omega)
  · rw [Finset.sum_congr rfl (fun i hi => by
      rw [hget i (Finset.mem_range.mp hi)])]
    have hsum := Finset.sum_range_sub (fun i => taskBoundary H (num_tasks : ℤ) i)
      num_tasks
    simp only at hsum
    rw [hsum, taskBoundary_last H num_tasks h1, taskBoundary_zero H _, sub_zero]
/-- Witness for C2 at `H = 10`, `num_tasks = 3` (boundaries `0, 3, 7, 10`). -/
theorem c2_partition_tiles_exactly_witness :
    (0 < 10 ∧ 1 ≤ 3 ∧ 3 ≤ 10) ∧
    ((generateRanges 10 (3 : ℤ)).length = 3 ∧
    (∀ i, i < 3 →
      (generateRanges 10 (3 : ℤ)).getD i (0, 0) =
        (pyRound ((i : ℚ) * 10 / 3),
         pyRound (((i : ℚ) + 1) * 10 / 3))) ∧
    taskBoundary 10 (3 : ℤ) 0 = 0 ∧
    taskBoundary 10 (3 : ℤ) 3 = (10 : ℤ) ∧
    (∀ i j, i ≤ j → taskBoundary 10 (3 : ℤ) i ≤ taskBoundary 10 (3 : ℤ) j) ∧
    (∀ i, i + 1 < 3 →
      ((generateRanges 10 (3 : ℤ)).getD i (0, 0)).2 =
        ((generateRanges 10 (3 : ℤ)).getD (i + 1) (0, 0)).1) ∧
    (∀ i j, i < j → j < 3 →
      ((generateRanges 10 (3 : ℤ)).getD i (0, 0)).2 ≤
        ((generateRanges 10 (3 : ℤ)).getD j (0, 0)).1) ∧
    (∑ i in Finset.range 3,
      (((generateRanges 10 (3 : ℤ)).getD i (0, 0)).2 -
       ((generateRanges 10 (3 : ℤ)).getD i (0, 0)).1)) = (10 : ℤ)) :=
  ⟨⟨by norm_num, by norm_num, by norm_num⟩,
    c2_partition_tiles_exactly 10 3 (by norm_num) (by norm_num) (by norm_num)⟩
theorem axisSamples_getElem? (a0 a1 : ℚ) (n i : ℕ) (hi : i < n) :
    (axisSamples a0 a1 n)[i]? = some (a0 + axisDelta a0 a1 n * i) := by
  unfold axisSamples
  rw [List.getElem?_map, List.getElem?_range hi]
  rfl
theorem cInitRows_getD (x0 x1 y0 y1 : ℚ) (W H j : ℕ) (hj : j < H) :
    (cInitRows x0 x1 y0 y1 W H).getD j [] =
      (axisSamples x0 x1 W).map
        (fun real => ⟨real, y0 + axisDelta y0 y1 H * j⟩) := by
  unfold cInitRows
  rw [List.getD_eq_getElem?_getD, List.getElem?_map,
    axisSamples_getElem? y0 y1 H j hj]
  rfl
/-- **C4 counterexample.** With the default viewport and `W = H = 1` the `C`
row holds the grid constant `-2.25 - 1.25i` while the `Z` row decodes to `0`:
`Z` is *not* pre-seeded with the same values as `C` (the code seeds
`z0 = 0`, not `z0 = c`). -/
theorem c4_z_seeded_like_c_counterexample :
    zInitRows 1 1 ≠
      cInitRows X_BOUNDARY.1 X_BOUNDARY.2 Y_BOUNDARY.1 Y_BOUNDARY.2 1 1 := by
  have hr1 : List.range 1 = [0] := rfl
  have hax : ∀ a0 a1 : ℚ, axisSamples a0 a1 1 = [a0] := by
    intro a0 a1
    simp [axisSamples, hr1]
  intro h
  rw [show zInitRows 1 1 = [[(⟨0, 0⟩ : QC)]] from rfl] at h
  simp only [cInitRows, hax, List.map_cons, List.map_nil] at h
  norm_num [X_BOUNDARY, Y_BOUNDARY] at h
/-- **C4 (amended).** At buffer allocation the shared buffers are pre-seeded
so that `C[j][i]` holds the grid constant `X[i] + Y[j]·i` from the coordinate
grid, `Z` rows decode to all zeros — the code packs `struct.pack('d',0)*W*2`,
i.e. `z0 = 0` seeding, *not* `z0 = c` as the claim states (the kernel's first
round then produces `z1 = c`) — `N` and `Q` rows decode to all zeros, and
every completion flag is unset. -/
theorem c4_buffer_seeding_amended (W H : ℕ) (x0 x1 y0 y1 : ℚ) (num_tasks : ℤ)
    (j i : ℕ) (hj : j < H) (hi : i < W) :
    (cInitRows x0 x1 y0 y1 W H).length = H ∧
    ((cInitRows x0 x1 y0 y1 W H).getD j []).length = W ∧
    ((cInitRows x0 x1 y0 y1 W H).getD j []).getD i ⟨0, 0⟩ =
      ⟨x0 + axisDelta x0 x1 W * i, y0 + axisDelta y0 y1 H * j⟩ ∧
    (zInitRows W H).getD j [] = List.replicate W (⟨0, 0⟩ : QC) ∧
    (nInitRows W H).getD j [] = List.replicate W (0 : ℚ) ∧
    (qInitRows W H).getD j [] = List.replicate W (0 : ℚ) ∧
    (dInitFlags num_tasks).length = num_tasks.toNat ∧
    (∀ t, t < num_tasks.toNat → (dInitFlags num_tasks).getD t 1 = 0) := by
  refine ⟨?_, ?_, ?_, ?_, ?_, ?_, ?_, ?_⟩
  · simp [cInitRows, axisSamples]
  · rw [cInitRows_getD x0 x1 y0 y1 W H j hj]
    simp [axisSamples]
  · rw [cInitRows_getD x0 x1 y0 y1 W H j hj, List.getD_eq_getElem?_getD,
      List.getElem?_map, axisSamples_getElem? x0 x1 W i hi]
    rfl
  · rw [zInitRows, List.getD_eq_getElem?_getD, List.getElem?_replicate]
    simp [hj]
  · rw [nInitRows, List.getD_eq_getElem?_getD, List.getElem?_replicate]
    simp [hj]
  · rw [qInitRows, List.getD_eq_getElem?_getD, List.getElem?_replicate]
    simp [hj]
  · simp [dInitFlags]
  · intro t ht
    rw [dInitFlags, List.getD_eq_getElem?_getD, List.getElem?_replicate]
    simp [ht]
/-- Witness for the amended C4 at `W = H = 1`, the default viewport,
`num_tasks = 1`, pixel `(0, 0)`. -/
theorem c4_buffer_seeding_amended_witness :
    (0 < 1 ∧ 0 < 1) ∧
    ((cInitRows X_BOUNDARY.1 X_BOUNDARY.2 Y_BOUNDARY.1 Y_BOUNDARY.2 1 1).length = 1 ∧
    ((cInitRows X_BOUNDARY.1 X_BOUNDARY.2 Y_BOUNDARY.1 Y_BOUNDARY.2 1 1).getD 0 []).length = 1 ∧
    ((cInitRows X_BOUNDARY.1 X_BOUNDARY.2 Y_BOUNDARY.1 Y_BOUNDARY.2 1 1).getD 0 []).getD 0 ⟨0, 0⟩ =
      ⟨X_BOUNDARY.1 + axisDelta X_BOUNDARY.1 X_BOUNDARY.2 1 * (0 : ℕ),
       Y_BOUNDARY.1 + axisDelta Y_BOUNDARY.1 Y_BOUNDARY.2 1 * (0 : ℕ)⟩ ∧
    (zInitRows 1 1).getD 0 [] = List.replicate 1 (⟨0, 0⟩ : QC) ∧
    (nInitRows 1 1).getD 0 [] = List.replicate 1 (0 : ℚ) ∧
    (qInitRows 1 1).getD 0 [] = List.replicate 1 (0 : ℚ) ∧
    (dInitFlags 1).length = (1 : ℤ).toNat ∧
    (∀ t, t < (1 : ℤ).toNat → (dInitFlags 1).getD t 1 = 0)) :=
  ⟨⟨Nat.one_pos, Nat.one_pos⟩,
    c4_buffer_seeding_amended 1 1 X_BOUNDARY.1 X_BOUNDARY.2 Y_BOUNDARY.1
      Y_BOUNDARY.2 1 0 0 Nat.one_pos Nat.one_pos⟩
/-- **C7 counterexample.** With `H = 2` and `num_tasks = 5 > H`,
`generate_tasks` does not fail at all — it returns a task list of five ranges
(some empty) and allocated buffers — contradicting the claim that it fails
with an `InvalidPartition` error whenever `num_tasks > H`. -/
theorem c7_invalid_partition_counterexample :
    (generate_tasks 1 2 X_BOUNDARY.1 X_BOUNDARY.2 Y_BOUNDARY.1 Y_BOUNDARY.2
      5).isOk = true := rfl
/-- **C7 (amended).** `generate_tasks` performs no worker-count validation.
The only failing input is `num_tasks = 0`, for which the division
`H / num_tasks` on line 141 raises `ZeroDivisionError` — synchronously and
before any shared buffer is allocated (the error carries no buffers).  Every
other `num_tasks`, including negative values and values exceeding `H`,
succeeds. -/
theorem c7_no_invalid_partition_error_amended (W H : ℕ) (x0 x1 y0 y1 : ℚ)
    (num_tasks : ℤ) :
    ((generate_tasks W H x0 x1 y0 y1 num_tasks).isOk = true ↔ num_tasks ≠ 0) ∧
    generate_tasks W H x0 x1 y0 y1 0 = .error .zeroDivision := by
  constructor
  · unfold generate_tasks
    by_cases h : num_tasks = 0
    · simp [h, Except.isOk, Except.toBool]
    · simp [h, Except.isOk, Except.toBool]
  · rfl
theorem getD_set_self (l : List ℕ) (k v : ℕ) (h : k < l.length) :
    (l.set k v).getD k 0 = v := by
  induction l generalizing k with
  | nil => simp at h
  | cons a as ih =>
    cases k with
    | zero => rfl
    | succ k => exact ih k (Nat.lt_of_succ_lt_succ h)
/-- **C6.** If the completion flag for `task_no` is already set, `run_task`
fails with the duplicate-execution error without invoking the wrapped
function (the outcome is the same for any wrapped function) and leaves the
flags and buffers unmodified; if the flag is unset and the function returns
normally, `run_task` runs it and then sets the flag — so the flag transitions
unset → set exactly once, and a repeated invocation fails while leaving the
first run's state unmodified. -/
theorem c6_run_task_at_most_once {β γ ε : Type} (task_no : ℕ)
    (done_array : List ℕ) (function g : β → β × Except ε γ) (bufs bufs' : β)
    (value : γ) (hlen : task_no < done_array.length) :
    (done_array.getD task_no 0 ≠ 0 →
      run_task task_no done_array function bufs =
        ((done_array, bufs), .error .duplicate) ∧
      run_task task_no done_array function bufs =
        run_task task_no done_array g bufs) ∧
    (done_array.getD task_no 0 = 0 → function bufs = (bufs', .ok value) →
      run_task task_no done_array function bufs =
        ((done_array.set task_no 1, bufs'), .ok value) ∧
      (done_array.set task_no 1).getD task_no 0 = 1 ∧
      run_task task_no (done_array.set task_no 1) g bufs' =
        ((done_array.set task_no 1, bufs'), .error .duplicate)) := by
  constructor
  · intro hset
    unfold run_task
    rw [if_pos hset, if_pos hset]
    exact ⟨rfl, rfl⟩
  · intro hunset hfun
    have hflag : (done_array.set task_no 1).getD task_no 0 = 1 :=
      getD_set_self done_array task_no 1 hlen
    refine ⟨?_, hflag, ?_⟩
    · unfold run_task
      rw [if_neg (fun hne => hne hunset), hfun]
    · unfold run_task
      rw [if_pos (by rw [hflag]; norm_num)]
/-- Witness for C6: one task, flag initially unset, a function that bumps a
counter and returns `7`. -/
theorem c6_run_task_at_most_once_witness :
    0 < [0].length ∧
    ((([0] : List ℕ).getD 0 0 ≠ 0 →
      run_task 0 [0] (fun b : ℕ => (b + 1, Except.ok (ε := Unit) 7)) 0 =
        (([0], 0), .error .duplicate) ∧
      run_task 0 [0] (fun b : ℕ => (b + 1, Except.ok (ε := Unit) 7)) 0 =
        run_task 0 [0] (fun b : ℕ => (b + 1, Except.ok (ε := Unit) 7)) 0) ∧
    (([0] : List ℕ).getD 0 0 = 0 →
      (fun b : ℕ => (b + 1, Except.ok (ε := Unit) 7)) 0 = (1, Except.ok 7) →
      run_task 0 [0] (fun b : ℕ => (b + 1, Except.ok (ε := Unit) 7)) 0 =
        ((([0] : List ℕ).set 0 1, 1), .ok 7) ∧
      (([0] : List ℕ).set 0 1).getD 0 0 = 1 ∧
      run_task 0 (([0] : List ℕ).set 0 1)
          (fun b : ℕ => (b + 1, Except.ok (ε := Unit) 7)) 1 =
        ((([0] : List ℕ).set 0 1, 1), .error .duplicate))) :=
  ⟨Nat.one_pos,
    c6_run_task_at_most_once 0 [0] (fun b : ℕ => (b + 1, Except.ok (ε := Unit) 7))
      (fun b : ℕ => (b + 1, Except.ok (ε := Unit) 7)) 0 1 7 Nat.one_pos⟩
/-- **C10.** If the flag for `task_no` is unset and the wrapped function
raises, `run_task` propagates the exception and the completion flag remains
unset (the returned flag array is the unchanged input), so a failed task is
indistinguishable from a never-run task with respect to the flags. -/
theorem c10_run_task_exception_leaves_flag_unset {β γ ε : Type} (task_no : ℕ)
    (done_array : List ℕ) (function : β → β × Except ε γ) (bufs bufs' : β)
    (e : ε) (hflag : done_array.getD task_no 0 = 0)
    (hf : function bufs = (bufs', .error e)) :
    run_task (γ := γ) task_no done_array function bufs =
      ((done_array, bufs'), .error (.raised e)) := by
  unfold run_task
  rw [if_neg (fun hne => hne hflag), hf]
/-- Witness for C10: one task, flag unset, a function that raises. -/
theorem c10_run_task_exception_leaves_flag_unset_witness :
    ([0] : List ℕ).getD 0 0 = 0 ∧
    (fun b : ℕ => (b + 1, Except.error (α := ℕ) ())) 0 = (1, Except.error ()) ∧
    run_task 0 [0] (fun b : ℕ => (b + 1, Except.error (α := ℕ) ())) 0 =
      (([0], 1), .error (.raised ())) :=
  ⟨rfl, rfl,
    c10_run_task_exception_leaves_flag_unset 0 [0]
      (fun b : ℕ => (b + 1, Except.error ())) 0 1 () rfl rfl⟩
theorem unpack_doubles_block (W : ℕ) (blk rest : List ℕ) (hb : blk.length = 8) :
    unpack_doubles (W + 1) (blk ++ rest) =
      unpackD blk :: unpack_doubles W rest := by
  unfold unpack_doubles
  rw [List.range_succ_eq_map, List.map_cons, List.map_map]
  congr 1
  · rw [Nat.mul_zero, List.drop_zero, List.take_left' hb]
  · apply List.map_congr_left
    intro i _
    have h1 : 8 * (i + 1) = 8 * i + 8 := by ring
    simp only [Function.comp]
    rw [h1, Nat.add_comm, ← List.drop_drop, List.drop_left' hb]
theorem unpack_doubles_pack_doubles (vs : List ℕ)
    (hb : ∀ v ∈ vs, v < 2 ^ 64) :
    unpack_doubles vs.length (pack_doubles vs) = vs := by
  induction vs with
  | nil => rfl
  | cons v vs ih =>
    have hcons : pack_doubles (v :: vs) = packD v ++ pack_doubles vs := by
      simp [pack_doubles]
    rw [List.length_cons, hcons,
      unpack_doubles_block vs.length (packD v) _ (packD_length v),
      unpackD_packD v (hb v (List.mem_cons_self v vs)),
      ih (fun x hx => hb x (List.mem_cons_of_mem v hx))]
/-- **C9.** For a `Q` buffer of well-formed rows (each a packed record of `W`
doubles plus the sentinel byte), `data_to_image_matrix` returns a row-major
grid of exactly one output row per buffer row, each of exactly `W` values,
equal to the decoded `Q` channel with each row's sentinel stripped (the
`[:-1]`); the grid is bare numbers — no color mapping. -/
theorem c9_image_matrix_decodes_q (W : ℕ) (vals : List (List ℕ))
    (hW : ∀ row ∈ vals, row.length = W)
    (hb : ∀ row ∈ vals, ∀ v ∈ row, v < 2 ^ 64) :
    data_to_image_matrix W (vals.map (fun row => pack_doubles row ++ [10])) =
      vals ∧
    (data_to_image_matrix W
      (vals.map (fun row => pack_doubles row ++ [10]))).length = vals.length ∧
    ∀ row ∈ data_to_image_matrix W
      (vals.map (fun row => pack_doubles row ++ [10])), row.length = W := by
  have h1 : ∀ row ∈ vals,
      unpack_doubles W ((pack_doubles row ++ [10]).dropLast) = row := by
    intro row hr
    rw [List.dropLast_concat, ← hW row hr,
      unpack_doubles_pack_doubles row (hb row hr)]
  have hmain : data_to_image_matrix W
      (vals.map (fun row => pack_doubles row ++ [10])) = vals := by
    unfold data_to_image_matrix
    rw [List.map_map]
    have h2 : vals.map ((fun row_data => unpack_doubles W row_data.dropLast) ∘
        (fun row => pack_doubles row ++ [10])) = vals.map id :=
      List.map_congr_left (fun r hr => by
        simpa [Function.comp] using h1 r hr)
    rw [h2, List.map_id]
  refine ⟨hmain, by rw [hmain], ?_⟩
  rw [hmain]
  exact hW
/-- Witness for C9 on a 2×2 grid of small values. -/
theorem c9_image_matrix_decodes_q_witness :
    ((∀ row ∈ [[1, 2], [3, 4]], List.length row = 2) ∧
     (∀ row ∈ [[1, 2], [3, 4]], ∀ v ∈ row, v < 2 ^ 64)) ∧
    (data_to_image_matrix 2
      (([[1, 2], [3, 4]] : List (List ℕ)).map
        (fun row => pack_doubles row ++ [10])) = [[1, 2], [3, 4]] ∧
    (data_to_image_matrix 2
      (([[1, 2], [3, 4]] : List (List ℕ)).map
        (fun row => pack_doubles row ++ [10]))).length =
      ([[1, 2], [3, 4]] : List (List ℕ)).length ∧
    ∀ row ∈ data_to_image_matrix 2
      (([[1, 2], [3, 4]] : List (List ℕ)).map
        (fun row => pack_doubles row ++ [10])), row.length = 2) :=
  ⟨⟨by decide, by decide⟩,
    c9_image_matrix_decodes_q 2 [[1, 2], [3, 4]] (by decide) (by decide)⟩
/-- **C3.** Encoding a sequence of complex values produces exactly `16n`
bytes — two 8-byte doubles per value, real part first, in sequence order —
and decoding is the exact inverse, reproducing every 64-bit payload
bit-identically (NaN and infinity patterns included, since the codec moves
raw representation bytes); each record stored in the shared rows carries one
non-zero sentinel byte (`b'\n'` = `10`) that is stripped (`[:-1]`) before
decoding, so the store-then-load round trip is also the identity. -/
theorem c3_codec_exact_roundtrip (clist : List (ℕ × ℕ))
    (hw : ∀ p ∈ clist, p.1 < 2 ^ 64 ∧ p.2 < 2 ^ 64) :
    (complex_list_to_bytes clist).length = 16 * clist.length ∧
    bytes_to_complex_list (complex_list_to_bytes clist) = clist ∧
    (10 : ℕ) ≠ 0 ∧
    (complex_list_to_bytes clist ++ [10]).dropLast = complex_list_to_bytes clist ∧
    bytes_to_complex_list ((complex_list_to_bytes clist ++ [10]).dropLast) =
      clist := by
  have hdrop : (complex_list_to_bytes clist ++ [10]).dropLast =
      complex_list_to_bytes clist := List.dropLast_concat
  exact ⟨complex_list_to_bytes_length clist,
    bytes_to_complex_list_complex_list_to_bytes clist hw,
    by norm_num, hdrop,
    by rw [hdrop]; exact bytes_to_complex_list_complex_list_to_bytes clist hw⟩
theorem c3_codec_exact_roundtrip_witness :
    (∀ p ∈ [((3 : ℕ), 2 ^ 63), (2 ^ 64 - 1, 0)],
      p.1 < 2 ^ 64 ∧ p.2 < 2 ^ 64) ∧
    ((complex_list_to_bytes [((3 : ℕ), 2 ^ 63), (2 ^ 64 - 1, 0)]).length =
      16 * ([((3 : ℕ), 2 ^ 63), (2 ^ 64 - 1, 0)] : List (ℕ × ℕ)).length ∧
    bytes_to_complex_list
      (complex_list_to_bytes [((3 : ℕ), 2 ^ 63), (2 ^ 64 - 1, 0)]) =
        [((3 : ℕ), 2 ^ 63), (2 ^ 64 - 1, 0)] ∧
    (10 : ℕ) ≠ 0 ∧
    (complex_list_to_bytes [((3 : ℕ), 2 ^ 63), (2 ^ 64 - 1, 0)] ++
      [10]).dropLast =
        complex_list_to_bytes [((3 : ℕ), 2 ^ 63), (2 ^ 64 - 1, 0)] ∧
    bytes_to_complex_list
      ((complex_list_to_bytes [((3 : ℕ), 2 ^ 63), (2 ^ 64 - 1, 0)] ++
        [10]).dropLast) = [((3 : ℕ), 2 ^ 63), (2 ^ 64 - 1, 0)]) :=
  ⟨by decide,
    c3_codec_exact_roundtrip [((3 : ℕ), 2 ^ 63), (2 ^ 64 - 1, 0)] (by decide)⟩
